import Mathlib

/-!
Shallow embedding of the RUC-lookup service (`src/app.py` of the
Consulta_RUC repository) and proofs about its validator, cache, admission
control, rate limiting, janitor, and HTTP layer.

Modelling conventions:
* Python strings are Lean `String`s (lists of characters).  The regex
  character class `\d` is modelled on the ASCII fragment as
  `Char.isDigit`; Python's `\d` additionally accepts non-ASCII Unicode
  decimal digits, which the identifiers this service handles never
  contain.
* A Python function that may raise an uncaught exception is embedded as
  `Except String α`, the `String` carrying the exception name/message.
* `datetime.now()` is a `Nat` timestamp threaded explicitly; `timedelta`
  comparisons become `Nat` comparisons on ages (`now - ts`).  `Nat`
  truncated subtraction and Python's negative `timedelta` comparisons
  agree on every comparison the code performs.
* The Python `dict` is an insertion-ordered association list with unique
  keys: assignment to an existing key keeps its position, assignment to
  a fresh key appends, `del` removes, and `min(....items(), key=...)`
  returns the first minimum in iteration order.
-/

namespace ConsultaRuc

/-! ## Validator — `validar_ruc`, src/app.py lines 116-140 -/

/-- The fixed weight sequence `multiplicadores = [5, 4, 3, 2, 7, 6, 5, 4, 3, 2]`. -/
def multiplicadores : List Nat := [5, 4, 3, 2, 7, 6, 5, 4, 3, 2]

/-- Python `int(c)` on a one-character string: the digit value for
`'0'`–`'9'`, a `ValueError` otherwise. -/
def pyIntChar (c : Char) : Except String Nat :=
  if c.isDigit then .ok (c.toNat - 48) else .error "ValueError"

/-- Python `re.match(r'^\d{11}$', s)`: without `re.MULTILINE`, Python's `$`
matches at the end of the string *or just before a newline at the end of
the string*, so the pattern accepts both an 11-digit string and an
11-digit string followed by a single final `'\n'`. -/
def reMatch11 (cs : List Char) : Bool :=
  (cs.length == 11 && cs.all Char.isDigit)
  || (cs.length == 12 && (cs.take 11).all Char.isDigit && cs.getLast? == some '\n')

/-- The weighted sum `suma = sum(int(digito) * mult for digito, mult in zip(ruc[:10], multiplicadores))`:
`zip` stops at the shorter list; `int` may raise. -/
def sumaPonderada : List Char → List Nat → Except String Nat
  | _, [] => .ok 0
  | [], _ :: _ => .ok 0
  | c :: cs, m :: ms =>
    match pyIntChar c with
    | .error e => .error e
    | .ok d =>
      match sumaPonderada cs ms with
      | .error e => .error e
      | .ok s => .ok (d * m + s)

/-- The validator `validar_ruc(ruc)`, src/app.py lines 116-140.  Returns the boolean the
Python function returns; `Except.error` is an uncaught exception
(`int(ruc[-1])` raises `ValueError` when the regex matched via the
trailing-newline behaviour of `$`). -/
def validar_ruc (ruc : String) : Except String Bool :=
  if reMatch11 ruc.data then
    match sumaPonderada (ruc.data.take 10) multiplicadores with
    | .error e => .error e
    | .ok suma =>
      let resto := suma % 11
      let dv0 := 11 - resto
      let dv := if dv0 = 10 then 0 else if dv0 = 11 then 1 else dv0
      match ruc.data.getLast? with
      | none => .error "IndexError"
      | some c =>
        match pyIntChar c with
        | .error e => .error e
        | .ok last => .ok (dv == last)
  else .ok false

/-! ## Cache — `cache_ruc`, a Python dict guarded by `cache_lock` -/

/-- One cache value: the dict `{'data': ..., 'timestamp': ...}` stored at
src/app.py lines 278-281. -/
structure Entry where
  data : List (String × String)
  timestamp : Nat
deriving DecidableEq, Repr

/-- The cache dict `cache_ruc`, as an insertion-ordered association list. -/
abbrev Cache := List (String × Entry)

/-- Dict lookup `ruc in cache_ruc` / `cache_ruc[ruc]`. -/
def lookupKey : Cache → String → Option Entry
  | [], _ => none
  | (k, e) :: rest, ruc => if k = ruc then some e else lookupKey rest ruc

/-- Dict deletion `del cache_ruc[ruc]`. -/
def eraseKey : Cache → String → Cache
  | [], _ => []
  | (k, e) :: rest, ruc => if k = ruc then rest else (k, e) :: eraseKey rest ruc

/-- Dict assignment `cache_ruc[ruc] = e`: overwriting an existing key keeps its position in
iteration order, a fresh key is appended. -/
def setKey : Cache → String → Entry → Cache
  | [], ruc, e => [(ruc, e)]
  | (k, e') :: rest, ruc, e =>
      if k = ruc then (ruc, e) :: rest else (k, e') :: setKey rest ruc e

/-- Auxiliary scan for `oldestKey`, carrying the best key and timestamp. -/
def oldestKeyGo (bk : String) (bt : Nat) : Cache → String
  | [] => bk
  | (k, e) :: rest =>
      if e.timestamp < bt then oldestKeyGo k e.timestamp rest else oldestKeyGo bk bt rest

/-- The expression `min(cache_ruc.items(), key=lambda x: x[1]['timestamp'])[0]`
(src/app.py line 275): the first key attaining the minimal timestamp in
iteration order (`min` replaces its candidate only on a strictly smaller
key).  `none` on the empty dict, where Python `min` would raise. -/
def oldestKey : Cache → Option String
  | [] => none
  | (k, e) :: rest => some (oldestKeyGo k e.timestamp rest)

/-- The cache-check block of `consultar_ruc`, src/app.py lines 163-173:
under `cache_lock`, if the identifier is present and
`now - timestamp < timedelta(seconds=CACHE_TTL)` return the cached data,
otherwise delete the expired entry; on absence do nothing.  Returns the
hit (if any) and the cache afterwards. -/
def cacheGet (c : Cache) (ttl now : Nat) (ruc : String) :
    Option (List (String × String)) × Cache :=
  match lookupKey c ruc with
  | some e => if now - e.timestamp < ttl then (some e.data, c) else (none, eraseKey c ruc)
  | none => (none, c)

/-- The cache-store block of `consultar_ruc`, src/app.py lines 272-282:
under `cache_lock`, if `len(cache_ruc) >= MAX_CACHE_SIZE` first delete the
entry with the oldest timestamp, then store the result with the current
time.  (On an empty dict at `maxSize = 0` Python's `min` would raise; the
model skips the eviction there.) -/
def cachePut (c : Cache) (maxSize : Nat) (ruc : String)
    (data : List (String × String)) (now : Nat) : Cache :=
  let c1 := if maxSize ≤ c.length then
      match oldestKey c with
      | some old => eraseKey c old
      | none => c
    else c
  setKey c1 ruc ⟨data, now⟩

/-- The deletion test of the janitor `limpiar_cache`, src/app.py line 79:
an entry is collected iff `datetime.now() - value['timestamp'] >
timedelta(seconds=CACHE_TTL)`, i.e. strictly older than `ttl`. -/
def expiradaJanitor (ttl now : Nat) (e : Entry) : Bool :=
  decide (ttl < now - e.timestamp)

/-- One sweep of the janitor `limpiar_cache`, src/app.py lines 77-82: under
`cache_lock`, collect every key whose entry satisfies `expiradaJanitor` and
delete them all.  (The surrounding loop sleeps `CACHE_TTL` seconds between
sweeps and runs forever; each sweep is this pure map transformation.) -/
def limpiarCacheSweep (c : Cache) (ttl now : Nat) : Cache :=
  c.filter (fun kv => ! expiradaJanitor ttl now kv.2)

/-! ## The taxpayer record -/

/-- The thirteen scraped fields assembled into `resultado` at src/app.py
lines 254-268. -/
structure Record where
  numeroRuc : String
  razonSocial : String
  tipoContribuyente : String
  nombreComercial : String
  fechaInscripcion : String
  fechaInicioActividades : String
  estadoContribuyente : String
  condicionContribuyente : String
  domicilioFiscal : String
  sistemaEmisionComprobante : String
  actividadComercioExterior : String
  sistemaContabilidad : String
  actividadPrincipal : String
deriving DecidableEq

/-- The success dict `resultado` literal of src/app.py lines 254-268. -/
def Record.toDict (r : Record) : List (String × String) :=
  [("Número de RUC", r.numeroRuc),
   ("Razón Social", r.razonSocial),
   ("Tipo Contribuyente", r.tipoContribuyente),
   ("Nombre Comercial", r.nombreComercial),
   ("Fecha de Inscripción", r.fechaInscripcion),
   ("Fecha de Inicio de Actividades", r.fechaInicioActividades),
   ("Estado del Contribuyente", r.estadoContribuyente),
   ("Condición del Contribuyente", r.condicionContribuyente),
   ("Domicilio Fiscal", r.domicilioFiscal),
   ("Sistema Emisión de Comprobante", r.sistemaEmisionComprobante),
   ("Actividad Comercio Exterior", r.actividadComercioExterior),
   ("Sistema Contabilidad", r.sistemaContabilidad),
   ("Actividad Principal", r.actividadPrincipal)]

/-- An error dict `{"error": msg}` as built at src/app.py lines 158, 286,
289, 321, 331. -/
def errorDict (msg : String) : List (String × String) := [("error", msg)]

/-- The test `'error' in resultado` (src/app.py line 326): key-membership test on a
dict. -/
def hasKey (d : List (String × String)) (k : String) : Bool :=
  d.any (fun kv => kv.1 == k)

/-! ## Orchestration — `consultar_ruc`, src/app.py lines 142-294 -/

/-- Semaphore events emitted by `with semaforo:` (src/app.py line 177). -/
inductive Event
  | acquire
  | release
deriving DecidableEq, Repr

/-- Outcome of the guarded Selenium session (src/app.py lines 179-292),
abstracting the external resolver:
* `success rec` — scraping completes and `resultado = rec.toDict`;
* `timeout` / `noSuchElement` — a `TimeoutException` or
  `NoSuchElementException`, caught at line 284;
* `unexpected` — any other exception inside the `try`, caught at line 287;
* `initFailure` — `configurar_driver()` (line 179) raises
  `WebDriverException`, which is *not* inside the `try` starting at line
  184 and so propagates out of `consultar_ruc` (the `with semaforo:` block
  still releases the permit on the way out). -/
inductive ResolverOutcome
  | success (rec : Record)
  | timeout (msg : String)
  | noSuchElement (msg : String)
  | unexpected (msg : String)
  | initFailure (msg : String)
deriving DecidableEq

/-- Sanitization `re.sub(r'\D', '', ruc)` (src/app.py line 161), on the ASCII fragment. -/
def sanitizar (ruc : String) : String :=
  ⟨ruc.data.filter Char.isDigit⟩

/-- The orchestrator `consultar_ruc(ruc)`, src/app.py lines 142-294, as a function of the
cache state, the current time and the abstract session outcome.  Returns
the result (`Except.error` = an exception propagating out of the
function), the cache afterwards, and the semaphore events emitted.  The
model uses one timestamp `now` for the whole request. -/
def consultar_ruc (ttl maxSize : Nat) (ruc : String) (cache : Cache) (now : Nat)
    (out : ResolverOutcome) :
    Except String (List (String × String)) × Cache × List Event :=
  match validar_ruc ruc with
  | .error e => (.error e, cache, [])
  | .ok false =>
      (.ok (errorDict ("El RUC proporcionado no es válido: " ++ ruc)), cache, [])
  | .ok true =>
    match cacheGet cache ttl now (sanitizar ruc) with
    | (some data, c1) => (.ok data, c1, [])
    | (none, c1) =>
      match out with
      | .success rec =>
          (.ok rec.toDict, cachePut c1 maxSize (sanitizar ruc) rec.toDict now,
           [Event.acquire, Event.release])
      | .timeout m =>
          (.ok (errorDict ("Error al procesar el RUC " ++ sanitizar ruc ++ ": " ++ m)),
           c1, [Event.acquire, Event.release])
      | .noSuchElement m =>
          (.ok (errorDict ("Error al procesar el RUC " ++ sanitizar ruc ++ ": " ++ m)),
           c1, [Event.acquire, Event.release])
      | .unexpected m =>
          (.ok (errorDict ("Error inesperado al procesar el RUC " ++ sanitizar ruc ++ ": " ++ m)),
           c1, [Event.acquire, Event.release])
      | .initFailure m => (.error m, c1, [Event.acquire, Event.release])

/-! ## HTTP layer — `api_consultar_ruc`, src/app.py lines 309-331 -/

/-- The endpoint `api_consultar_ruc()`, src/app.py lines 309-331: a missing or empty
`ruc` query parameter (`if not ruc:`) yields 400; an exception from
`consultar_ruc` is caught and yields 500; a result containing the key
`'error'` yields 400; otherwise 200 with the result as the JSON body. -/
def api_consultar_ruc (ttl maxSize : Nat) (rucParam : Option String)
    (cache : Cache) (now : Nat) (out : ResolverOutcome) :
    (List (String × String) × Nat) × Cache × List Event :=
  match rucParam with
  | none => ((errorDict "Se requiere el parámetro \x27ruc\x27.", 400), cache, [])
  | some ruc =>
    if ruc = "" then ((errorDict "Se requiere el parámetro \x27ruc\x27.", 400), cache, [])
    else
      match consultar_ruc ttl maxSize ruc cache now out with
      | (.error e, c1, ev) =>
          ((errorDict ("Error al procesar el RUC " ++ ruc ++ ": " ++ e), 500), c1, ev)
      | (.ok resultado, c1, ev) =>
          if hasKey resultado "error" then ((resultado, 400), c1, ev)
          else ((resultado, 200), c1, ev)

/-! ## Rate limiter -/

/-- Per-client fixed-window state `{count, windowStart}`. -/
structure RLState where
  count : Nat
  windowStart : Nat
deriving DecidableEq, Repr

/-- Modelled from the spec: the fixed-window counting algorithm of §4.5
("maintain `count` and `windowStart` per `clientKey`; on each call, if
`now − windowStart ≥ windowSize`, reset `count = 0, windowStart = now`;
increment `count`; return `count ≤ limit`").  The repository configures
this behaviour through the third-party `flask_limiter` library
(src/app.py lines 45-49 and 310), whose implementation is not among the
sources. -/
def rlAllow (st : Option RLState) (windowSize limit : Nat) (now : Nat) :
    Bool × RLState :=
  let base : RLState := match st with
    | none => ⟨0, now⟩
    | some s => if windowSize ≤ now - s.windowStart then ⟨0, now⟩ else s
  let next : RLState := ⟨base.count + 1, base.windowStart⟩
  (decide (next.count ≤ limit), next)

/-- Run the limiter over a sequence of call times for one client. -/
def rlRun (windowSize limit : Nat) : Option RLState → List Nat → List Bool × Option RLState
  | st, [] => ([], st)
  | st, t :: ts =>
      let p := rlAllow st windowSize limit t
      let q := rlRun windowSize limit (some p.2) ts
      (p.1 :: q.1, q.2)

/-- The decorated endpoint: `@limiter.limit("10 per minute")` runs before
the handler body, so a rejected request is answered with a 429-class
response before the `ruc` parameter is read, validated, or looked up in
the cache, and without entering `with semaforo:`.  The rate-limit check
itself is modelled from the spec (see `rlAllow`). -/
def handleRequest (ttl maxSize windowSize limit : Nat) (rl : Option RLState)
    (rucParam : Option String) (cache : Cache) (now : Nat) (out : ResolverOutcome) :
    (List (String × String) × Nat) × Cache × List Event × RLState :=
  let p := rlAllow rl windowSize limit now
  if p.1 then
    let q := api_consultar_ruc ttl maxSize rucParam cache now out
    (q.1, q.2.1, q.2.2, p.2)
  else ((errorDict "ratelimit exceeded", 429), cache, [], p.2)

/-! ## Admission control — `semaforo = threading.Semaphore(MAX_CONCURRENT_REQUESTS)`,
src/app.py lines 64-65, entered by `with semaforo:` at line 177 -/

/-- The number of in-flight requests currently holding a permit: with
traces produced by `consultar_ruc`, exactly those whose remaining events
are `[Event.release]`. -/
def countHolding : List (List Event) → Nat
  | [] => 0
  | p :: ps => (if p = [Event.release] then 1 else 0) + countHolding ps

/-- Interleaving semantics of the counting semaphore: a configuration is
the number of available permits paired with each in-flight request's
remaining event trace; a step runs one process's next event, and an
`acquire` is enabled only while a permit is available
(`semaforo.acquire()` blocks otherwise). -/
inductive SemStep : Nat × List (List Event) → Nat × List (List Event) → Prop
  | acq (avail : Nat) (ps : List (List Event)) (i : Nat) (rest : List Event)
      (hi : i < ps.length) (hp : ps.get ⟨i, hi⟩ = Event.acquire :: rest)
      (hpos : 0 < avail) :
      SemStep (avail, ps) (avail - 1, ps.set i rest)
  | rel (avail : Nat) (ps : List (List Event)) (i : Nat) (rest : List Event)
      (hi : i < ps.length) (hp : ps.get ⟨i, hi⟩ = Event.release :: rest) :
      SemStep (avail, ps) (avail + 1, ps.set i rest)

/-- Configurations reachable from `N` free permits and initial traces `ps0`. -/
def SemReachable (N : Nat) (ps0 : List (List Event)) :
    Nat × List (List Event) → Prop :=
  Relation.ReflTransGen SemStep (N, ps0)

/-- A remaining trace is well-formed: not yet started, holding a permit,
or finished. -/
def TraceOK (p : List Event) : Prop :=
  p = [] ∨ p = [Event.release] ∨ p = [Event.acquire, Event.release]

/-- The inductive invariant: every remaining trace is well-formed and
permits are conserved. -/
def SemInv (N : Nat) (s : Nat × List (List Event)) : Prop :=
  (∀ p ∈ s.2, TraceOK p) ∧ s.1 + countHolding s.2 = N

/-! ## Auxiliary definitions for the statements -/

/-- The sum `Σ digit_i * weight_i` over position-aligned digit/weight lists,
following spec §4.1 (stopping at the shorter list, as `zip` does). -/
def sumaPesos : List Nat → List Nat → Nat
  | _, [] => 0
  | [], _ :: _ => 0
  | d :: ds, m :: ms => d * m + sumaPesos ds ms

/-- The checksum relation of spec §4.1 on a list of digit values: weight
the first 10 digits by `multiplicadores`, `remainder = sum mod 11`,
`check = 11 - remainder` normalized by `10 → 0` and `11 → 1`; valid iff
`check` equals the last (11th) digit. -/
def checksumOk (ds : List Nat) : Bool :=
  let suma := sumaPesos (ds.take 10) multiplicadores
  let resto := suma % 11
  let dv0 := 11 - resto
  let dv := if dv0 = 10 then 0 else if dv0 = 11 then 1 else dv0
  match ds.getLast? with
  | some d => dv == d
  | none => false

/-- Outcomes on which the `try` of `consultar_ruc` does not reach the
cache store: a timeout, a missing element, an unexpected exception, or a
driver-initialization failure. -/
def ResolverOutcome.failing : ResolverOutcome → Bool
  | .success _ => false
  | .timeout _ => true
  | .noSuchElement _ => true
  | .unexpected _ => true
  | .initFailure _ => true

/-- Key/data pairs inserted at consecutive timestamps starting at `t`
(the shape the cache takes after a run of fresh inserts). -/
def withTimes : List (String × List (String × String)) → Nat → Cache
  | [], _ => []
  | (k, d) :: rest, t => (k, ⟨d, t⟩) :: withTimes rest (t + 1)

/-- Perform `cachePut` for each listed identifier at consecutive
timestamps `t, t+1, ...` (the capacity-scenario driver of spec §8). -/
def putSeq (cap : Nat) (c : Cache) :
    List (String × List (String × String)) → Nat → Cache
  | [], _ => c
  | (k, d) :: rest, t => putSeq cap (cachePut c cap k d t) rest (t + 1)

/-- Proposition stating that `(j, ej)` is the first entry of `c` attaining the minimal timestamp:
every entry before it is strictly younger-stamped... i.e. strictly
greater, and every entry after it has a greater-or-equal timestamp.  This
is exactly the element Python's `min(..., key=...)` selects. -/
def IsFirstMin (c : Cache) (j : String) (ej : Entry) : Prop :=
  ∃ c₁ c₂, c = c₁ ++ (j, ej) :: c₂
    ∧ (∀ p ∈ c₁, ej.timestamp < p.2.timestamp)
    ∧ (∀ p ∈ c₂, ej.timestamp ≤ p.2.timestamp)

/-- The allow/deny verdicts of `n` consecutive fixed-window calls
starting from counter value `c`: the i-th call is allowed iff the
incremented counter stays within `limit`. -/
def expectedAllows (limit c n : Nat) : List Bool :=
  match n with
  | 0 => []
  | n + 1 => decide (c + 1 ≤ limit) :: expectedAllows limit (c + 1) n

/-- A sample taxpayer record, used to instantiate witnesses. -/
def recVacio : Record :=
  ⟨"20100039207 - BANCO DE CREDITO DEL PERU", "BANCO DE CREDITO DEL PERU",
   "", "", "", "", "", "", "", "", "", "", ""⟩

theorem countHolding_set (ps : List (List Event)) (i : Nat) (x : List Event)
    (hi : i < ps.length) :
    countHolding (ps.set i x) + (if ps.get ⟨i, hi⟩ = [Event.release] then 1 else 0)
      = countHolding ps + (if x = [Event.release] then 1 else 0) := by
  induction ps generalizing i with
  | nil => simp at hi
  | cons p ps ih =>
    cases i with
    | zero => simp [countHolding]; omega
    | succ j =>
      have hj : j < ps.length := by simpa using hi
      have hrec := ih j hj
      simp only [List.get_eq_getElem] at hrec ⊢
      simp [countHolding, List.set]
      omega

theorem semInv_step {N : Nat} {s t : Nat × List (List Event)}
    (hinv : SemInv N s) (hstep : SemStep s t) : SemInv N t := by
  cases hstep with
  | acq avail ps i rest hi hp hpos =>
    obtain ⟨hok, hcount⟩ := hinv
    have hTr : TraceOK (ps.get ⟨i, hi⟩) := hok _ (ps.get_mem i hi)
    rw [hp] at hTr
    have hrest : rest = [Event.release] := by
      rcases hTr with h | h | h <;> simp_all
    subst hrest
    refine ⟨?_, ?_⟩
    · intro p hmem
      rcases List.mem_or_eq_of_mem_set hmem with h | h
      · exact hok p h
      · rw [h]; right; left; rfl
    · have hset := countHolding_set ps i [Event.release] hi
      rw [hp] at hset
      simp at hset
      simp only [] at hcount ⊢
      omega
  | rel avail ps i rest hi hp =>
    obtain ⟨hok, hcount⟩ := hinv
    have hTr : TraceOK (ps.get ⟨i, hi⟩) := hok _ (ps.get_mem i hi)
    rw [hp] at hTr
    have hrest : rest = [] := by
      rcases hTr with h | h | h <;> simp_all
    subst hrest
    refine ⟨?_, ?_⟩
    · intro p hmem
      rcases List.mem_or_eq_of_mem_set hmem with h | h
      · exact hok p h
      · rw [h]; left; rfl
    · have hset := countHolding_set ps i [] hi
      rw [hp] at hset
      simp at hset
      simp only [] at hcount ⊢
      omega

/-- A trace a request starts with: `consultar_ruc` either never touches
the semaphore or performs one acquire followed by one release. -/
def InitTrace (p : List Event) : Prop :=
  p = [] ∨ p = [Event.acquire, Event.release]

theorem countHolding_init {ps : List (List Event)}
    (h : ∀ p ∈ ps, InitTrace p) : countHolding ps = 0 := by
  induction ps with
  | nil => rfl
  | cons p ps ih =>
    have hp := h p (by simp)
    have hrec := ih (fun q hq => h q (by simp [hq]))
    rcases hp with h1 | h1 <;> simp [countHolding, h1, hrec]

theorem semInv_reachable {N : Nat} {ps0 : List (List Event)}
    (h0 : ∀ p ∈ ps0, InitTrace p) {s : Nat × List (List Event)}
    (hs : SemReachable N ps0 s) : SemInv N s := by
  induction hs with
  | refl =>
    refine ⟨fun p hp => ?_, ?_⟩
    · rcases h0 p hp with h | h
      · left; exact h
      · right; right; exact h
    · simp [countHolding_init h0]
  | tail hsteps hstep ih => exact semInv_step ih hstep

/-- The semaphore trace emitted by one call of `consultar_ruc` is either
empty (rate of the request never reached `with semaforo:`) or exactly one
acquire followed by one release. -/
theorem consultar_ruc_trace_shape (ttl maxSize : Nat) (ruc : String)
    (cache : Cache) (now : Nat) (out : ResolverOutcome) :
    InitTrace (consultar_ruc ttl maxSize ruc cache now out).2.2 := by
  unfold consultar_ruc
  cases hv : validar_ruc ruc with
  | error e => left; rfl
  | ok b =>
    cases b with
    | false => left; rfl
    | true =>
      cases hg : cacheGet cache ttl now (sanitizar ruc) with
      | mk fst snd =>
        cases fst with
        | some d => left; rfl
        | none => cases out <;> (right; rfl)

/-! ## Association-list toolkit for the cache dict -/

theorem lookupKey_setKey_self (c : Cache) (k : String) (e : Entry) :
    lookupKey (setKey c k e) k = some e := by
  induction c with
  | nil => simp [setKey, lookupKey]
  | cons p rest ih =>
    by_cases h : p.1 = k
    · simp [setKey, h, lookupKey]
    · simp [setKey, h, lookupKey, ih]

theorem lookupKey_setKey_ne (c : Cache) (k k' : String) (e : Entry) (h : k' ≠ k) :
    lookupKey (setKey c k e) k' = lookupKey c k' := by
  induction c with
  | nil => simp [setKey, lookupKey, Ne.symm h]
  | cons p rest ih =>
    by_cases h1 : p.1 = k
    · subst h1
      simp [setKey, lookupKey, Ne.symm h]
    · simp [setKey, h1, lookupKey, ih]

theorem lookupKey_eq_none_of_not_mem (c : Cache) (k : String)
    (h : k ∉ c.map Prod.fst) : lookupKey c k = none := by
  induction c with
  | nil => rfl
  | cons p rest ih =>
    simp only [List.map_cons, List.mem_cons] at h
    push_neg at h
    simp [lookupKey, Ne.symm h.1, ih h.2]

theorem mem_keys_of_lookupKey_some (c : Cache) (k : String) (e : Entry)
    (h : lookupKey c k = some e) : k ∈ c.map Prod.fst := by
  induction c with
  | nil => simp [lookupKey] at h
  | cons p rest ih =>
    by_cases h1 : p.1 = k
    · simp [h1]
    · simp [lookupKey, h1] at h
      simp [ih h]

theorem lookupKey_eraseKey_ne (c : Cache) (k k' : String) (h : k' ≠ k) :
    lookupKey (eraseKey c k) k' = lookupKey c k' := by
  induction c with
  | nil => rfl
  | cons p rest ih =>
    by_cases h1 : p.1 = k
    · subst h1
      simp [eraseKey, lookupKey, Ne.symm h]
    · simp [eraseKey, h1, lookupKey, ih]

theorem keys_eraseKey_sublist (c : Cache) (k : String) :
    ((eraseKey c k).map Prod.fst).Sublist (c.map Prod.fst) := by
  induction c with
  | nil => simp [eraseKey]
  | cons p rest ih =>
    by_cases h : p.1 = k
    · simp only [eraseKey, h, if_pos rfl]
      exact (List.sublist_cons_self _ _)
    · simp only [eraseKey, h, if_neg h, List.map_cons]
      exact ih.cons₂ _

theorem lookupKey_eraseKey_self (c : Cache) (k : String)
    (hnd : (c.map Prod.fst).Nodup) : lookupKey (eraseKey c k) k = none := by
  induction c with
  | nil => rfl
  | cons p rest ih =>
    simp only [List.map_cons, List.nodup_cons] at hnd
    by_cases h : p.1 = k
    · subst h
      simp only [eraseKey, if_pos rfl]
      exact lookupKey_eq_none_of_not_mem rest p.1 hnd.1
    · simp [eraseKey, h, lookupKey, ih hnd.2]

theorem mem_keys_setKey (c : Cache) (k k'' : String) (e : Entry)
    (h : k'' ∈ (setKey c k e).map Prod.fst) : k'' ∈ c.map Prod.fst ∨ k'' = k := by
  induction c with
  | nil => simp [setKey] at h; right; exact h
  | cons p rest ih =>
    by_cases h1 : p.1 = k
    · simp only [setKey, if_pos h1, List.map_cons, List.mem_cons] at h
      rcases h with h | h
      · right; exact h
      · left; simp [h]
    · simp only [setKey, if_neg h1, List.map_cons, List.mem_cons] at h
      rcases h with h | h
      · left; simp [h]
      · rcases ih h with h2 | h2
        · left; simp [h2]
        · right; exact h2

theorem nodup_keys_setKey (c : Cache) (k : String) (e : Entry)
    (hnd : (c.map Prod.fst).Nodup) : ((setKey c k e).map Prod.fst).Nodup := by
  induction c with
  | nil => simp [setKey]
  | cons p rest ih =>
    simp only [List.map_cons, List.nodup_cons] at hnd
    by_cases h1 : p.1 = k
    · subst h1
      simpa [setKey] using hnd
    · simp only [setKey, if_neg h1, List.map_cons, List.nodup_cons]
      refine ⟨fun hmem => ?_, ih hnd.2⟩
      rcases mem_keys_setKey rest k p.1 e hmem with h2 | h2
      · exact hnd.1 h2
      · exact h1 h2

theorem nodup_keys_eraseKey (c : Cache) (k : String)
    (hnd : (c.map Prod.fst).Nodup) : ((eraseKey c k).map Prod.fst).Nodup :=
  hnd.sublist (keys_eraseKey_sublist c k)

theorem nodup_keys_cachePut (c : Cache) (maxSize : Nat) (k : String)
    (d : List (String × String)) (now : Nat) (hnd : (c.map Prod.fst).Nodup) :
    ((cachePut c maxSize k d now).map Prod.fst).Nodup := by
  unfold cachePut
  by_cases h : maxSize ≤ c.length
  · simp only [if_pos h]
    cases hk : oldestKey c with
    | none => exact nodup_keys_setKey _ _ _ hnd
    | some old => exact nodup_keys_setKey _ _ _ (nodup_keys_eraseKey _ _ hnd)
  · simp only [if_neg h]
    exact nodup_keys_setKey _ _ _ hnd

theorem lookupKey_cachePut_self (c : Cache) (maxSize : Nat) (k : String)
    (d : List (String × String)) (now : Nat) :
    lookupKey (cachePut c maxSize k d now) k = some ⟨d, now⟩ := by
  unfold cachePut
  by_cases h : maxSize ≤ c.length
  · simp only [if_pos h]
    cases hk : oldestKey c with
    | none => exact lookupKey_setKey_self _ _ _
    | some old => exact lookupKey_setKey_self _ _ _
  · simp only [if_neg h]
    exact lookupKey_setKey_self _ _ _

end ConsultaRuc

namespace ConsultaRuc

example : validar_ruc "20100039207" = .ok true := rfl

example : validar_ruc "20100039206" = .ok false := rfl

example : validar_ruc "20100039207\n" = .error "ValueError" := rfl

example : validar_ruc "123" = .ok false := rfl

example : validar_ruc "2010003920A" = .ok false := rfl

/-! ## Validator lemmas -/

theorem sumaPonderada_ok (cs : List Char) (ms : List Nat)
    (h : ∀ c ∈ cs, c.isDigit) :
    sumaPonderada cs ms = .ok (sumaPesos (cs.map fun c => c.toNat - 48) ms) := by
  induction cs generalizing ms with
  | nil => cases ms <;> rfl
  | cons c cs ih =>
    cases ms with
    | nil => rfl
    | cons m ms =>
      have hc : c.isDigit := h c (by simp)
      have hrest : ∀ x ∈ cs, x.isDigit = true := fun x hx => h x (by simp [hx])
      simp [sumaPonderada, pyIntChar, hc, ih ms hrest, sumaPesos]

/-- On an exactly-11-digit string, `validar_ruc` returns precisely the
checksum verdict of spec §4.1. -/
theorem validar_ruc_digits_spec (s : String)
    (hlen : s.data.length = 11) (hdig : ∀ c ∈ s.data, c.isDigit) :
    validar_ruc s = .ok (checksumOk (s.data.map fun c => c.toNat - 48)) := by
  have hmatch : reMatch11 s.data = true := by
    simp only [reMatch11, Bool.or_eq_true, Bool.and_eq_true, beq_iff_eq]
    exact Or.inl ⟨hlen, List.all_eq_true.mpr hdig⟩
  have hne : s.data ≠ [] := by
    intro h0; rw [h0] at hlen; simp at hlen
  obtain ⟨c, hc⟩ : ∃ c, s.data.getLast? = some c := by
    cases hgl : s.data.getLast? with
    | none => exact absurd (List.getLast?_eq_none_iff.mp hgl) hne
    | some c => exact ⟨c, rfl⟩
  have hcmem : c ∈ s.data := by
    obtain ⟨h0, hceq⟩ := List.mem_getLast?_eq_getLast
      (show c ∈ s.data.getLast? by rw [Option.mem_def]; exact hc)
    rw [hceq]; exact List.getLast_mem h0
  have hdig10 : ∀ x ∈ s.data.take 10, x.isDigit :=
    fun x hx => hdig x (List.take_subset _ _ hx)
  have hcd : c.isDigit := hdig c hcmem
  unfold validar_ruc checksumOk
  rw [if_pos hmatch, sumaPonderada_ok _ _ hdig10, hc, List.map_take,
    List.getLast?_map, hc]
  simp [pyIntChar, hcd]

/-- C1 (code bug): the canonical example `"20100039207"` validates true and
every alteration of its last digit validates false, as do a short and a
non-numeric input; but the 11-digit string followed by a terminating
newline — which the claim requires to *fail* as malformed — instead raises
`ValueError`, because Python's `$` in `re.match(r'^\d{11}$', ...)` matches
just before a trailing newline and `int('\n')` then throws, escaping
`validar_ruc` (src/app.py lines 127, 140). -/
theorem validar_ruc_canonical_and_newline_exn :
    validar_ruc "20100039207" = .ok true
    ∧ (validar_ruc "20100039200" = .ok false ∧ validar_ruc "20100039201" = .ok false
       ∧ validar_ruc "20100039202" = .ok false ∧ validar_ruc "20100039203" = .ok false
       ∧ validar_ruc "20100039204" = .ok false ∧ validar_ruc "20100039205" = .ok false
       ∧ validar_ruc "20100039206" = .ok false ∧ validar_ruc "20100039208" = .ok false
       ∧ validar_ruc "20100039209" = .ok false)
    ∧ validar_ruc "123" = .ok false
    ∧ validar_ruc "2010003920A" = .ok false
    ∧ validar_ruc "20100039207\n" = .error "ValueError" :=
  ⟨rfl, ⟨rfl, rfl, rfl, rfl, rfl, rfl, rfl, rfl, rfl⟩, rfl, rfl, rfl⟩

/-! ## Cache theorems -/

/-- C2: cache round-trip and read-triggered expiry.  Immediately after the
store block of `consultar_ruc` (src/app.py lines 272-282) runs for `id`,
the check block (lines 163-173) returns the stored value and leaves the
cache — in particular the stored insertion time — untouched; at any time
of age ≥ `ttl` the same `get` misses and deletes the entry as a side
effect; an absent identifier misses without side effect.  Because the hit
leaves the insertion time unchanged, access does not extend an entry's
lifetime. -/
theorem cache_roundtrip_and_expiry (c : Cache) (maxSize ttl now now2 : Nat)
    (id id2 : String) (d : List (String × String))
    (httl : 0 < ttl) (hexp : ttl ≤ now2 - now)
    (hnd : (c.map Prod.fst).Nodup) (habs : lookupKey c id2 = none) :
    cacheGet (cachePut c maxSize id d now) ttl now id
        = (some d, cachePut c maxSize id d now)
    ∧ cacheGet (cachePut c maxSize id d now) ttl now2 id
        = (none, eraseKey (cachePut c maxSize id d now) id)
    ∧ lookupKey (eraseKey (cachePut c maxSize id d now) id) id = none
    ∧ cacheGet c ttl now2 id2 = (none, c) := by
  have hput := lookupKey_cachePut_self c maxSize id d now
  have hndput := nodup_keys_cachePut c maxSize id d now hnd
  refine ⟨?_, ?_, ?_, ?_⟩
  · unfold cacheGet
    rw [hput]
    simp [httl]
  · unfold cacheGet
    rw [hput]
    have hlt : ¬ (now2 - now < ttl) := by omega
    simp [hlt]
  · exact lookupKey_eraseKey_self _ _ hndput
  · unfold cacheGet
    rw [habs]

/-- Witness for `cache_roundtrip_and_expiry` at concrete inputs. -/
theorem cache_roundtrip_and_expiry_witness :
    cacheGet (cachePut [] 1000 "a" [("x", "y")] 0) 300 0 "a"
        = (some [("x", "y")], cachePut [] 1000 "a" [("x", "y")] 0)
    ∧ cacheGet (cachePut [] 1000 "a" [("x", "y")] 0) 300 300 "a"
        = (none, eraseKey (cachePut [] 1000 "a" [("x", "y")] 0) "a")
    ∧ lookupKey (eraseKey (cachePut [] 1000 "a" [("x", "y")] 0) "a") "a" = none
    ∧ cacheGet [] 300 300 "b" = (none, []) :=
  cache_roundtrip_and_expiry [] 1000 300 0 300 "a" "b" [("x", "y")]
    (by decide) (by decide) (by simp) rfl

/-! ## Admission-control theorems -/

/-- C3: admission bound and guaranteed release.  In any interleaving of
requests whose semaphore traces are produced by `consultar_ruc`, under
the blocking semantics of `threading.Semaphore(N)` (src/app.py lines
64-65), the number of concurrently held permits never exceeds `N`; and
every path of `consultar_ruc` pairs each acquire with exactly one release
— the `with semaforo:` block (line 177) releases on success, on caught
resolver failures, and on exceptions that escape the function. -/
theorem semaforo_bound_and_paired_release (N : Nat) (ps0 : List (List Event))
    (h0 : ∀ p ∈ ps0, ∃ ttl maxSize ruc cache now out,
        p = (consultar_ruc ttl maxSize ruc cache now out).2.2)
    (s : Nat × List (List Event)) (hs : SemReachable N ps0 s) :
    countHolding s.2 ≤ N
    ∧ ∀ p ∈ ps0, p.count Event.acquire = p.count Event.release := by
  have hinit : ∀ p ∈ ps0, InitTrace p := by
    intro p hp
    obtain ⟨ttl, maxSize, ruc, cache, now, out, hpe⟩ := h0 p hp
    rw [hpe]
    exact consultar_ruc_trace_shape ttl maxSize ruc cache now out
  have hinv := semInv_reachable hinit hs
  refine ⟨?_, ?_⟩
  · have h2 := hinv.2
    omega
  · intro p hp
    rcases hinit p hp with h | h <;> rw [h] <;> rfl

/-- Witness for `semaforo_bound_and_paired_release`: with one permit, the
configuration reached after a single request's acquire still satisfies
the bound. -/
theorem semaforo_bound_witness : countHolding [[Event.release]] ≤ 1 :=
  (semaforo_bound_and_paired_release 1 [[Event.acquire, Event.release]]
    (by
      intro p hp
      simp only [List.mem_singleton] at hp
      exact ⟨300, 1000, "20100039207", [], 0, ResolverOutcome.timeout "x",
        by rw [hp]; rfl⟩)
    (0, [[Event.release]])
    (Relation.ReflTransGen.tail Relation.ReflTransGen.refl
      (SemStep.acq 1 [[Event.acquire, Event.release]] 0 [Event.release]
        (by decide) rfl (by decide)))).1

/-! ## Cache-hit theorems -/

/-- C9: end-to-end cache-hit behaviour.  After a first lookup that missed
the cache and succeeded, a second lookup for the same identifier within
`CACHE_TTL` returns the identical record, leaves the cache unchanged, and
emits no semaphore events — the hit path (src/app.py lines 163-173)
returns before `with semaforo:` is reached, whatever the resolver would
have done (`out2` is arbitrary, so the resolver is not consulted). -/
theorem cache_hit_no_second_resolve (ttl maxSize now1 now2 : Nat) (ruc : String)
    (cache : Cache) (rec : Record) (out2 : ResolverOutcome)
    (hval : validar_ruc ruc = .ok true)
    (hmiss : (cacheGet cache ttl now1 (sanitizar ruc)).1 = none)
    (hfresh : now2 - now1 < ttl) :
    (consultar_ruc ttl maxSize ruc cache now1 (.success rec)).1 = .ok rec.toDict
    ∧ consultar_ruc ttl maxSize ruc
        (consultar_ruc ttl maxSize ruc cache now1 (.success rec)).2.1 now2 out2
      = (.ok rec.toDict,
         (consultar_ruc ttl maxSize ruc cache now1 (.success rec)).2.1, []) := by
  rcases hget : cacheGet cache ttl now1 (sanitizar ruc) with ⟨hit, c1⟩
  rw [hget] at hmiss
  simp only [] at hmiss
  subst hmiss
  have h1 : consultar_ruc ttl maxSize ruc cache now1 (.success rec)
      = (.ok rec.toDict, cachePut c1 maxSize (sanitizar ruc) rec.toDict now1,
         [Event.acquire, Event.release]) := by
    unfold consultar_ruc
    rw [hval, hget]
  have hlk := lookupKey_cachePut_self c1 maxSize (sanitizar ruc) rec.toDict now1
  have h2 : cacheGet (cachePut c1 maxSize (sanitizar ruc) rec.toDict now1) ttl now2
        (sanitizar ruc)
      = (some rec.toDict, cachePut c1 maxSize (sanitizar ruc) rec.toDict now1) := by
    unfold cacheGet
    rw [hlk]
    simp [hfresh]
  refine ⟨by rw [h1], ?_⟩
  rw [h1]
  show consultar_ruc ttl maxSize ruc
      (cachePut c1 maxSize (sanitizar ruc) rec.toDict now1) now2 out2
    = (.ok rec.toDict, cachePut c1 maxSize (sanitizar ruc) rec.toDict now1, [])
  unfold consultar_ruc
  rw [hval, h2]

/-- Witness for `cache_hit_no_second_resolve` at concrete inputs. -/
theorem cache_hit_no_second_resolve_witness :
    (consultar_ruc 300 1000 "20100039207" [] 0 (.success recVacio)).1
        = .ok recVacio.toDict
    ∧ consultar_ruc 300 1000 "20100039207"
        (consultar_ruc 300 1000 "20100039207" [] 0 (.success recVacio)).2.1 100
        (.timeout "x")
      = (.ok recVacio.toDict,
         (consultar_ruc 300 1000 "20100039207" [] 0 (.success recVacio)).2.1, []) :=
  cache_hit_no_second_resolve 300 1000 0 100 "20100039207" [] recVacio
    (.timeout "x") rfl rfl (by decide)

/-! ## Record-shape theorems -/

theorem hasKey_toDict_error (rec : Record) : hasKey rec.toDict "error" = false := rfl

/-- C10: every success dict carries exactly the thirteen fixed field
names of src/app.py lines 254-268 and never the key `"error"`, while
every failure body is an error dict carrying `"error"` — so the
`'error' in resultado` test at line 326 separates success results from
failure results unambiguously. -/
theorem record_fields_and_error_separation (rec : Record) (msg : String) :
    (rec.toDict).map Prod.fst
      = ["Número de RUC", "Razón Social", "Tipo Contribuyente",
         "Nombre Comercial", "Fecha de Inscripción",
         "Fecha de Inicio de Actividades", "Estado del Contribuyente",
         "Condición del Contribuyente", "Domicilio Fiscal",
         "Sistema Emisión de Comprobante", "Actividad Comercio Exterior",
         "Sistema Contabilidad", "Actividad Principal"]
    ∧ hasKey rec.toDict "error" = false
    ∧ hasKey (errorDict msg) "error" = true :=
  ⟨rfl, hasKey_toDict_error rec, rfl⟩

/-! ## Janitor theorems -/

/-- C8 counterexample: an entry whose age equals `ttl` exactly is *not*
removed by a janitor sweep — the deletion test at src/app.py line 79 uses
a strict `>` on the age, while the claim requires removal at age ≥ ttl
(the get path at line 167 already treats age = ttl as expired). -/
theorem janitor_keeps_entry_of_age_ttl :
    limpiarCacheSweep [("20100039207", ⟨[("k", "v")], 0⟩)] 300 300
      = [("20100039207", ⟨[("k", "v")], 0⟩)] := rfl

/-- C8 (amended): each janitor sweep removes exactly the entries whose
age is *strictly greater* than `ttl` at sweep time: an entry survives the
sweep iff it was present and its age is at most `ttl`.  (The surrounding
loop at src/app.py lines 75-82 repeats this forever with a fixed
`time.sleep(CACHE_TTL)` period; the sweep body is total, so no sweep
failure can propagate to request handling.) -/
theorem janitor_sweep_strict (c : Cache) (ttl now : Nat) (k : String) (e : Entry) :
    (k, e) ∈ limpiarCacheSweep c ttl now ↔ (k, e) ∈ c ∧ now - e.timestamp ≤ ttl := by
  unfold limpiarCacheSweep expiradaJanitor
  simp [List.mem_filter, Nat.not_lt]

/-! ## Failure-path cache theorems -/

theorem lookupKey_eraseKey_sub (c : Cache) (k0 k : String) (e : Entry)
    (hnd : (c.map Prod.fst).Nodup)
    (h : lookupKey (eraseKey c k0) k = some e) : lookupKey c k = some e := by
  by_cases hk : k = k0
  · subst hk
    rw [lookupKey_eraseKey_self c k hnd] at h
    exact absurd h (by simp)
  · rw [lookupKey_eraseKey_ne c k0 k hk] at h
    exact h

/-- C5 counterexample: a failing lookup does *not* always leave the cache
unchanged — when the stored entry for the queried identifier has expired,
the cache-check step (src/app.py lines 170-173) deletes it before the
resolver runs, and the resolver then failing does not restore it. -/
theorem failing_lookup_changes_cache :
    (consultar_ruc 300 1000 "20100039207"
        [("20100039207", ⟨[("k", "v")], 0⟩)] 300 (.timeout "t")).2.1 = []
    ∧ ([("20100039207", Entry.mk [("k", "v")] 0)] : Cache) ≠ [] :=
  ⟨rfl, by simp⟩

/-- C5 (amended): on a lookup whose resolver outcome is a failure (or
whose validation fails), no cache entry is ever inserted or overwritten —
every entry of the resulting cache was already present with the same
value — and the cache is either exactly unchanged or has lost exactly the
read-triggered expired entry for the queried identifier.  Only successful
records are stored (the store block at src/app.py lines 272-282 sits in
the `try` after scraping succeeded). -/
theorem failures_never_cached (ttl maxSize now : Nat) (ruc k : String)
    (cache : Cache) (out : ResolverOutcome) (e : Entry)
    (hnd : (cache.map Prod.fst).Nodup)
    (hfail : out.failing = true)
    (hke : lookupKey (consultar_ruc ttl maxSize ruc cache now out).2.1 k = some e) :
    lookupKey cache k = some e
    ∧ ((consultar_ruc ttl maxSize ruc cache now out).2.1 = cache
       ∨ (consultar_ruc ttl maxSize ruc cache now out).2.1
           = eraseKey cache (sanitizar ruc)) := by
  have hres : (consultar_ruc ttl maxSize ruc cache now out).2.1 = cache
      ∨ (consultar_ruc ttl maxSize ruc cache now out).2.1
          = eraseKey cache (sanitizar ruc) := by
    unfold consultar_ruc
    cases hv : validar_ruc ruc with
    | error e0 => left; rfl
    | ok b =>
      cases b with
      | false => left; rfl
      | true =>
        rcases hget : cacheGet cache ttl now (sanitizar ruc) with ⟨hit, c1⟩
        have hc1 : c1 = cache ∨ c1 = eraseKey cache (sanitizar ruc) := by
          unfold cacheGet at hget
          cases hlk : lookupKey cache (sanitizar ruc) with
          | none =>
            simp only [hlk, Prod.mk.injEq] at hget
            left; exact hget.2.symm
          | some e0 =>
            simp only [hlk] at hget
            by_cases hfr : now - e0.timestamp < ttl
            · rw [if_pos hfr] at hget
              simp only [Prod.mk.injEq] at hget
              left; exact hget.2.symm
            · rw [if_neg hfr] at hget
              simp only [Prod.mk.injEq] at hget
              right; exact hget.2.symm
        cases hit with
        | some d => simpa using hc1
        | none =>
          cases out with
          | success rec => simp [ResolverOutcome.failing] at hfail
          | timeout m => simpa using hc1
          | noSuchElement m => simpa using hc1
          | unexpected m => simpa using hc1
          | initFailure m => simpa using hc1
  refine ⟨?_, hres⟩
  rcases hres with h | h
  · rw [h] at hke; exact hke
  · rw [h] at hke
    exact lookupKey_eraseKey_sub cache (sanitizar ruc) k e hnd hke

/-- Witness for `failures_never_cached`: a cache holding an expired entry
for the queried identifier and a fresh entry for another; the failing
lookup only drops the expired one. -/
theorem failures_never_cached_witness :
    lookupKey [("20100039207", Entry.mk [("k", "v")] 0),
               ("20131312955", Entry.mk [("k2", "v2")] 250)] "20131312955"
        = some (Entry.mk [("k2", "v2")] 250)
    ∧ ((consultar_ruc 300 1000 "20100039207"
          [("20100039207", Entry.mk [("k", "v")] 0),
           ("20131312955", Entry.mk [("k2", "v2")] 250)] 300 (.timeout "t")).2.1
        = [("20100039207", Entry.mk [("k", "v")] 0),
           ("20131312955", Entry.mk [("k2", "v2")] 250)]
       ∨ (consultar_ruc 300 1000 "20100039207"
          [("20100039207", Entry.mk [("k", "v")] 0),
           ("20131312955", Entry.mk [("k2", "v2")] 250)] 300 (.timeout "t")).2.1
        = eraseKey [("20100039207", Entry.mk [("k", "v")] 0),
                    ("20131312955", Entry.mk [("k2", "v2")] 250)]
            (sanitizar "20100039207")) :=
  failures_never_cached 300 1000 300 "20100039207" "20131312955"
    [("20100039207", Entry.mk [("k", "v")] 0),
     ("20131312955", Entry.mk [("k2", "v2")] 250)]
    (.timeout "t") (Entry.mk [("k2", "v2")] 250) (by simp) rfl rfl

/-! ## HTTP status-mapping theorems -/

/-- C6 counterexample: an unexpected fault during resolution is caught
inside `consultar_ruc` (src/app.py lines 287-289) and turned into an
error dict, which the endpoint then returns with status **400** (lines
326-327) — not 500 as the claim states. -/
theorem unexpected_fault_maps_to_400 :
    (api_consultar_ruc 300 1000 (some "20100039207") [] 0
        (.unexpected "boom")).1
      = (errorDict "Error inesperado al procesar el RUC 20100039207: boom",
         400) := rfl

/-- C6 (amended): the endpoint returns 200 with the record fields on
success; 400 with `{"error": ...}` for a missing (or empty) `ruc`
parameter, a failed validation, *and* any resolver failure caught inside
`consultar_ruc` (timeout, element-not-found, or unexpected fault during
resolution); 500 with `{"error": ...}` only for exceptions that escape
`consultar_ruc` itself — a WebDriver initialization failure or the
validator's `ValueError`. -/
theorem api_status_mapping (ttl maxSize now : Nat) (cache : Cache)
    (out : ResolverOutcome) (rucBad rucVal rucErr m e0 : String) (rec : Record)
    (hbad : validar_ruc rucBad = .ok false)
    (hval : validar_ruc rucVal = .ok true)
    (hmiss : (cacheGet cache ttl now (sanitizar rucVal)).1 = none)
    (herr : validar_ruc rucErr = .error e0) :
    (api_consultar_ruc ttl maxSize none cache now out).1
        = (errorDict "Se requiere el parámetro \x27ruc\x27.", 400)
    ∧ ((api_consultar_ruc ttl maxSize (some rucBad) cache now out).1.2 = 400
       ∧ hasKey (api_consultar_ruc ttl maxSize (some rucBad) cache now out).1.1
           "error" = true)
    ∧ (api_consultar_ruc ttl maxSize (some rucVal) cache now (.success rec)).1
        = (rec.toDict, 200)
    ∧ ((api_consultar_ruc ttl maxSize (some rucVal) cache now (.timeout m)).1.2 = 400
       ∧ hasKey (api_consultar_ruc ttl maxSize (some rucVal) cache now
           (.timeout m)).1.1 "error" = true)
    ∧ ((api_consultar_ruc ttl maxSize (some rucVal) cache now
          (.noSuchElement m)).1.2 = 400
       ∧ hasKey (api_consultar_ruc ttl maxSize (some rucVal) cache now
           (.noSuchElement m)).1.1 "error" = true)
    ∧ ((api_consultar_ruc ttl maxSize (some rucVal) cache now
          (.unexpected m)).1.2 = 400
       ∧ hasKey (api_consultar_ruc ttl maxSize (some rucVal) cache now
           (.unexpected m)).1.1 "error" = true)
    ∧ ((api_consultar_ruc ttl maxSize (some rucVal) cache now
          (.initFailure m)).1.2 = 500
       ∧ hasKey (api_consultar_ruc ttl maxSize (some rucVal) cache now
           (.initFailure m)).1.1 "error" = true)
    ∧ ((api_consultar_ruc ttl maxSize (some rucErr) cache now out).1.2 = 500
       ∧ hasKey (api_consultar_ruc ttl maxSize (some rucErr) cache now out).1.1
           "error" = true) := by
  have hneVal : rucVal ≠ "" := by
    intro h
    rw [h, show validar_ruc "" = .ok false from rfl] at hval
    simp at hval
  have hneErr : rucErr ≠ "" := by
    intro h
    rw [h, show validar_ruc "" = .ok false from rfl] at herr
    simp at herr
  rcases hget : cacheGet cache ttl now (sanitizar rucVal) with ⟨hit, c1⟩
  rw [hget] at hmiss
  simp only [] at hmiss
  subst hmiss
  have hSucc : consultar_ruc ttl maxSize rucVal cache now (.success rec)
      = (.ok rec.toDict, cachePut c1 maxSize (sanitizar rucVal) rec.toDict now,
         [Event.acquire, Event.release]) := by
    unfold consultar_ruc; rw [hval, hget]
  have hTo : consultar_ruc ttl maxSize rucVal cache now (.timeout m)
      = (.ok (errorDict ("Error al procesar el RUC " ++ sanitizar rucVal ++ ": " ++ m)),
         c1, [Event.acquire, Event.release]) := by
    unfold consultar_ruc; rw [hval, hget]
  have hNo : consultar_ruc ttl maxSize rucVal cache now (.noSuchElement m)
      = (.ok (errorDict ("Error al procesar el RUC " ++ sanitizar rucVal ++ ": " ++ m)),
         c1, [Event.acquire, Event.release]) := by
    unfold consultar_ruc; rw [hval, hget]
  have hUn : consultar_ruc ttl maxSize rucVal cache now (.unexpected m)
      = (.ok (errorDict ("Error inesperado al procesar el RUC "
            ++ sanitizar rucVal ++ ": " ++ m)),
         c1, [Event.acquire, Event.release]) := by
    unfold consultar_ruc; rw [hval, hget]
  have hIn : consultar_ruc ttl maxSize rucVal cache now (.initFailure m)
      = (.error m, c1, [Event.acquire, Event.release]) := by
    unfold consultar_ruc; rw [hval, hget]
  have hErrCall : consultar_ruc ttl maxSize rucErr cache now out
      = (.error e0, cache, []) := by
    unfold consultar_ruc; rw [herr]
  refine ⟨rfl, ?_, ?_, ?_, ?_, ?_, ?_, ?_⟩
  · by_cases hb : rucBad = ""
    · subst hb
      exact ⟨rfl, rfl⟩
    · have hcb : consultar_ruc ttl maxSize rucBad cache now out
          = (.ok (errorDict ("El RUC proporcionado no es válido: " ++ rucBad)),
             cache, []) := by
        unfold consultar_ruc; rw [hbad]
      simp [api_consultar_ruc, hb, hcb, hasKey, errorDict]
  · simp [api_consultar_ruc, hneVal, hSucc, hasKey_toDict_error]
  · simp [api_consultar_ruc, hneVal, hTo, hasKey, errorDict]
  · simp [api_consultar_ruc, hneVal, hNo, hasKey, errorDict]
  · simp [api_consultar_ruc, hneVal, hUn, hasKey, errorDict]
  · simp [api_consultar_ruc, hneVal, hIn, hasKey, errorDict]
  · simp [api_consultar_ruc, hneErr, hErrCall, hasKey, errorDict]

/-- Witness for `api_status_mapping` at concrete inputs. -/
theorem api_status_mapping_witness :
    (api_consultar_ruc 300 1000 none [] 0 (.timeout "w")).1
        = (errorDict "Se requiere el parámetro \x27ruc\x27.", 400)
    ∧ ((api_consultar_ruc 300 1000 (some "123") [] 0 (.timeout "w")).1.2 = 400
       ∧ hasKey (api_consultar_ruc 300 1000 (some "123") [] 0
           (.timeout "w")).1.1 "error" = true)
    ∧ (api_consultar_ruc 300 1000 (some "20100039207") [] 0
          (.success recVacio)).1 = (recVacio.toDict, 200)
    ∧ ((api_consultar_ruc 300 1000 (some "20100039207") [] 0
          (.timeout "m")).1.2 = 400
       ∧ hasKey (api_consultar_ruc 300 1000 (some "20100039207") [] 0
           (.timeout "m")).1.1 "error" = true)
    ∧ ((api_consultar_ruc 300 1000 (some "20100039207") [] 0
          (.noSuchElement "m")).1.2 = 400
       ∧ hasKey (api_consultar_ruc 300 1000 (some "20100039207") [] 0
           (.noSuchElement "m")).1.1 "error" = true)
    ∧ ((api_consultar_ruc 300 1000 (some "20100039207") [] 0
          (.unexpected "m")).1.2 = 400
       ∧ hasKey (api_consultar_ruc 300 1000 (some "20100039207") [] 0
           (.unexpected "m")).1.1 "error" = true)
    ∧ ((api_consultar_ruc 300 1000 (some "20100039207") [] 0
          (.initFailure "m")).1.2 = 500
       ∧ hasKey (api_consultar_ruc 300 1000 (some "20100039207") [] 0
           (.initFailure "m")).1.1 "error" = true)
    ∧ ((api_consultar_ruc 300 1000 (some "20100039207\n") [] 0
          (.timeout "w")).1.2 = 500
       ∧ hasKey (api_consultar_ruc 300 1000 (some "20100039207\n") [] 0
           (.timeout "w")).1.1 "error" = true) :=
  api_status_mapping 300 1000 0 [] (.timeout "w") "123" "20100039207"
    "20100039207\n" "m" "ValueError" recVacio rfl rfl rfl rfl

/-! ## Rate-limiter theorems -/

theorem rlRun_within_window (W L t0 : Nat) (ts : List Nat) :
    ∀ c, (∀ t ∈ ts, t - t0 < W) →
      rlRun W L (some ⟨c, t0⟩) ts
        = (expectedAllows L c ts.length, some ⟨c + ts.length, t0⟩) := by
  induction ts with
  | nil => intro c _; simp [rlRun, expectedAllows]
  | cons t ts ih =>
    intro c hts
    have ht : ¬ (W ≤ t - t0) := by
      have := hts t (by simp); omega
    have hrest : ∀ x ∈ ts, x - t0 < W := fun x hx => hts x (by simp [hx])
    simp only [rlRun, rlAllow, if_neg ht, List.length_cons, expectedAllows]
    rw [ih (c + 1) hrest]
    rw [Prod.mk.injEq]
    refine ⟨rfl, ?_⟩
    simp only [Option.some.injEq, RLState.mk.injEq]
    constructor
    · omega
    · trivial

theorem expectedAllows_closed (L : Nat) : ∀ c, c ≤ L → c + 1 ≤ L + 1 →
    ∀ n, c + n = L + 1 →
      expectedAllows L c n = List.replicate (L - c) true ++ [false] := by
  intro c hc _ n
  induction n generalizing c with
  | zero => intro h; omega
  | succ n ih =>
    intro h
    by_cases hcl : c < L
    · have hd : (decide (c + 1 ≤ L)) = true := by simp; omega
      have htail := ih (c + 1) (by omega) (by omega) (by omega)
      rw [expectedAllows, hd, htail,
        show L - c = (L - (c + 1)) + 1 by omega, List.replicate_succ]
      rfl
    · have hce : c = L := by omega
      subst hce
      have hn : n = 0 := by omega
      subst hn
      have hd : (decide (c + 1 ≤ c)) = false := by simp
      rw [expectedAllows, hd, expectedAllows]
      simp

/-- C7 (spec-modelled rate limiter): with per-client limit `L` over window
`W` and a fresh client whose first call opens the window at `t0`, a run of
`L + 1` calls within the window yields `L` accepts followed by a reject;
a later call past the window end is accepted again (counter reset); and a
rate-limited request is answered 429 with the cache untouched, no
semaphore events, and the response independent of the `ruc` parameter and
resolver — rejection happens before validation or cache lookup and
consumes no admission permit. -/
theorem rate_limit_fixed_window (W L t0 t2 now0 ttl maxSize : Nat)
    (rest : List Nat) (rl0 : Option RLState) (cache0 : Cache)
    (rucParam : Option String) (out0 : ResolverOutcome)
    (hrest : ∀ t ∈ rest, t - t0 < W)
    (hlen : rest.length = L)
    (hL : 1 ≤ L)
    (hreset : W ≤ t2 - t0)
    (hrej : (rlAllow rl0 W L now0).1 = false) :
    (rlRun W L none (t0 :: rest)).1 = List.replicate L true ++ [false]
    ∧ (rlAllow (some ⟨L + 1, t0⟩) W L t2).1 = true
    ∧ handleRequest ttl maxSize W L rl0 rucParam cache0 now0 out0
        = ((errorDict "ratelimit exceeded", 429), cache0, [],
           (rlAllow rl0 W L now0).2) := by
  refine ⟨?_, ?_, ?_⟩
  · have h1 := rlRun_within_window W L t0 rest 1 hrest
    simp only [rlRun, rlAllow]
    rw [h1, hlen]
    have : (decide (0 + 1 ≤ L) :: expectedAllows L (0 + 1) L)
        = expectedAllows L 0 (L + 1) := rfl
    simp only []
    rw [show (decide (1 ≤ L) :: expectedAllows L 1 L)
        = expectedAllows L 0 (L + 1) from rfl]
    rw [expectedAllows_closed L 0 (by omega) (by omega) (L + 1) (by omega)]
    rfl
  · simp [rlAllow, hreset, hL]
  · simp [handleRequest, hrej]

/-- Witness for `rate_limit_fixed_window` at concrete inputs. -/
theorem rate_limit_fixed_window_witness :
    (rlRun 60 2 none (0 :: [10, 20])).1 = List.replicate 2 true ++ [false]
    ∧ (rlAllow (some ⟨2 + 1, 0⟩) 60 2 60).1 = true
    ∧ handleRequest 300 1000 60 2 (some ⟨5, 0⟩) (some "20100039207") [] 3
        (.timeout "w")
      = ((errorDict "ratelimit exceeded", 429), [], [],
         (rlAllow (some ⟨5, 0⟩) 60 2 3).2) :=
  rate_limit_fixed_window 60 2 0 60 3 300 1000 [10, 20] (some ⟨5, 0⟩) []
    (some "20100039207") (.timeout "w") (by decide) rfl (by decide) (by decide)
    rfl

/-! ## Capacity and eviction theorems -/

/-- C4 counterexample: with the cache at capacity, storing an identifier
that is *already present* still evicts the oldest entry — src/app.py line
274 tests `len(cache_ruc) >= MAX_CACHE_SIZE` before inserting, without
checking whether the insert is an overwrite — although that insertion
would not exceed capacity.  Entry `"a"` is lost. -/
theorem cachePut_evicts_on_overwrite :
    lookupKey [("a", Entry.mk [("x", "1")] 0), ("b", Entry.mk [("x", "2")] 1)] "b"
        = some (Entry.mk [("x", "2")] 1)
    ∧ ([("a", Entry.mk [("x", "1")] 0),
        ("b", Entry.mk [("x", "2")] 1)] : Cache).length ≤ 2
    ∧ lookupKey
        (cachePut [("a", Entry.mk [("x", "1")] 0), ("b", Entry.mk [("x", "2")] 1)]
          2 "b" [("x", "3")] 5) "a" = none :=
  ⟨rfl, by decide, rfl⟩

theorem setKey_fresh (c : Cache) (k : String) (e : Entry)
    (h : lookupKey c k = none) : setKey c k e = c ++ [(k, e)] := by
  induction c with
  | nil => rfl
  | cons p rest ih =>
    by_cases hk : p.1 = k
    · simp [lookupKey, hk] at h
    · simp only [lookupKey, if_neg hk] at h
      simp [setKey, hk, ih h]

theorem lookupKey_append_none (c c' : Cache) (k : String)
    (h : lookupKey c k = none) : lookupKey (c ++ c') k = lookupKey c' k := by
  induction c with
  | nil => rfl
  | cons p rest ih =>
    by_cases hk : p.1 = k
    · simp [lookupKey, hk] at h
    · simp only [lookupKey, if_neg hk] at h
      simp [lookupKey, hk, ih h]

theorem length_setKey_le (c : Cache) (k : String) (e : Entry) :
    (setKey c k e).length ≤ c.length + 1 := by
  induction c with
  | nil => simp [setKey]
  | cons p rest ih =>
    by_cases h : p.1 = k
    · simp [setKey, h]
    · simp only [setKey, if_neg h, List.length_cons]
      omega

theorem length_eraseKey_of_mem (c : Cache) (k : String)
    (h : k ∈ c.map Prod.fst) : (eraseKey c k).length + 1 = c.length := by
  induction c with
  | nil => simp at h
  | cons p rest ih =>
    by_cases hk : p.1 = k
    · simp [eraseKey, hk]
    · simp only [List.map_cons, List.mem_cons] at h
      rcases h with h | h
      · exact absurd h.symm hk
      · simp only [eraseKey, if_neg hk, List.length_cons]
        rw [← ih h]

theorem withTimes_length (es : List (String × List (String × String))) :
    ∀ t, (withTimes es t).length = es.length := by
  induction es with
  | nil => intro t; rfl
  | cons x es ih =>
    intro t
    rcases x with ⟨k, d⟩
    simp [withTimes, ih (t + 1)]

theorem withTimes_keys (es : List (String × List (String × String))) :
    ∀ t, (withTimes es t).map Prod.fst = es.map Prod.fst := by
  induction es with
  | nil => intro t; rfl
  | cons x es ih =>
    intro t
    rcases x with ⟨k, d⟩
    simp [withTimes, ih (t + 1)]

theorem withTimes_timestamp_ge (es : List (String × List (String × String))) :
    ∀ t p, p ∈ withTimes es t → t ≤ p.2.timestamp := by
  induction es with
  | nil => intro t p hp; simp [withTimes] at hp
  | cons x es ih =>
    intro t p hp
    rcases x with ⟨k, d⟩
    simp only [withTimes, List.mem_cons] at hp
    rcases hp with hp | hp
    · rw [hp]
    · have := ih (t + 1) p hp
      omega

theorem withTimes_append (xs ys : List (String × List (String × String))) :
    ∀ t, withTimes (xs ++ ys) t = withTimes xs t ++ withTimes ys (t + xs.length) := by
  induction xs with
  | nil => intro t; simp [withTimes]
  | cons x xs ih =>
    intro t
    rcases x with ⟨k, d⟩
    simp only [List.cons_append, withTimes, List.length_cons, List.append_eq]
    rw [ih (t + 1)]
    have harith : t + 1 + xs.length = t + (xs.length + 1) := by omega
    rw [harith]

theorem putSeq_append (cap : Nat) (xs ys : List (String × List (String × String))) :
    ∀ c t, putSeq cap c (xs ++ ys) t
      = putSeq cap (putSeq cap c xs t) ys (t + xs.length) := by
  induction xs with
  | nil => intro c t; simp [putSeq]
  | cons x xs ih =>
    intro c t
    rcases x with ⟨k, d⟩
    simp only [List.cons_append, putSeq, List.length_cons, List.append_eq]
    rw [ih]
    congr 1
    omega

theorem putSeq_fresh (cap : Nat) (es : List (String × List (String × String))) :
    ∀ c t, c.length + es.length ≤ cap →
      (∀ p ∈ es, lookupKey c p.1 = none) →
      (es.map Prod.fst).Nodup →
      putSeq cap c es t = c ++ withTimes es t := by
  induction es with
  | nil => intro c t _ _ _; simp [putSeq, withTimes]
  | cons x es ih =>
    intro c t hlen hfresh hnd
    rcases x with ⟨k, d⟩
    have hkfresh : lookupKey c k = none := hfresh (k, d) (by simp)
    have hnoev : ¬ (cap ≤ c.length) := by
      simp only [List.length_cons] at hlen
      omega
    have hput : cachePut c cap k d t = c ++ [(k, ⟨d, t⟩)] := by
      unfold cachePut
      rw [if_neg hnoev]
      exact setKey_fresh c k ⟨d, t⟩ hkfresh
    simp only [List.map_cons, List.nodup_cons] at hnd
    have hlen2 : (c ++ [(k, Entry.mk d t)]).length + es.length ≤ cap := by
      simp only [List.length_append, List.length_cons, List.length_nil] at hlen ⊢
      omega
    have hfresh2 : ∀ p ∈ es, lookupKey (c ++ [(k, Entry.mk d t)]) p.1 = none := by
      intro p hp
      have hpk : p.1 ≠ k := by
        intro h
        exact hnd.1 (h ▸ List.mem_map_of_mem Prod.fst hp)
      rw [lookupKey_append_none _ _ _ (hfresh p (by simp [hp]))]
      simp [lookupKey, Ne.symm hpk]
    simp only [putSeq]
    rw [hput, ih _ _ hlen2 hfresh2 hnd.2]
    simp [withTimes]

theorem oldestKeyGo_of_lt (c : Cache) : ∀ bk bt,
    (∀ p ∈ c, bt < p.2.timestamp) → oldestKeyGo bk bt c = bk := by
  induction c with
  | nil => intro bk bt _; rfl
  | cons p rest ih =>
    intro bk bt h
    have hp := h p (by simp)
    simp only [oldestKeyGo, if_neg (by omega : ¬ p.2.timestamp < bt)]
    exact ih bk bt (fun q hq => h q (by simp [hq]))

theorem oldestKeyGo_spec (c : Cache) : ∀ bk bt,
    (oldestKeyGo bk bt c = bk ∧ ∀ p ∈ c, bt ≤ p.2.timestamp)
    ∨ (∃ c₁ j ej c₂, c = c₁ ++ (j, ej) :: c₂
        ∧ oldestKeyGo bk bt c = j ∧ ej.timestamp < bt
        ∧ (∀ p ∈ c₁, ej.timestamp < p.2.timestamp)
        ∧ (∀ p ∈ c₂, ej.timestamp ≤ p.2.timestamp)) := by
  induction c with
  | nil => intro bk bt; left; exact ⟨rfl, by simp⟩
  | cons q rest ih =>
    intro bk bt
    rcases q with ⟨qk, qe⟩
    by_cases hq : qe.timestamp < bt
    · rcases ih qk qe.timestamp with ⟨heq, hall⟩ |
        ⟨c₁, j, ej, c₂, hsplit, heq, hlt, h₁, h₂⟩
      · right
        refine ⟨[], qk, qe, rest, by simp, ?_, hq, by simp, hall⟩
        simp [oldestKeyGo, hq, heq]
      · right
        refine ⟨(qk, qe) :: c₁, j, ej, c₂, by simp [hsplit], ?_, by omega,
          ?_, h₂⟩
        · simp [oldestKeyGo, hq, heq]
        · intro p hp
          rcases List.mem_cons.mp hp with h | h
          · rw [h]; show ej.timestamp < qe.timestamp; omega
          · exact h₁ p h
    · rcases ih bk bt with ⟨heq, hall⟩ |
        ⟨c₁, j, ej, c₂, hsplit, heq, hlt, h₁, h₂⟩
      · left
        refine ⟨by simp [oldestKeyGo, hq, heq], ?_⟩
        intro p hp
        rcases List.mem_cons.mp hp with h | h
        · rw [h]; show bt ≤ qe.timestamp; omega
        · exact hall p h
      · right
        refine ⟨(qk, qe) :: c₁, j, ej, c₂, by simp [hsplit], ?_, hlt, ?_, h₂⟩
        · simp [oldestKeyGo, hq, heq]
        · intro p hp
          rcases List.mem_cons.mp hp with h | h
          · rw [h]; show ej.timestamp < qe.timestamp; omega
          · exact h₁ p h

/-- The key `min(cache_ruc.items(), key=...)` returns identifies the first
entry attaining the minimal timestamp: Python `min` keeps the earliest of
tied candidates, which over an insertion-ordered dict is a deterministic
tie-break by insertion order. -/
theorem oldestKey_first_min (c : Cache) (hne : c ≠ []) :
    ∃ j ej, oldestKey c = some j ∧ IsFirstMin c j ej := by
  rcases c with _ | ⟨⟨qk, qe⟩, rest⟩
  · exact absurd rfl hne
  rcases oldestKeyGo_spec rest qk qe.timestamp with ⟨heq, hall⟩ |
    ⟨c₁, j, ej, c₂, hsplit, heq, hlt, h₁, h₂⟩
  · refine ⟨qk, qe, by simp [oldestKey, heq], [], rest, by simp, by simp, hall⟩
  · refine ⟨j, ej, by simp [oldestKey, heq], (qk, qe) :: c₁, c₂,
      by simp [hsplit], ?_, h₂⟩
    intro p hp
    rcases List.mem_cons.mp hp with h | h
    · rw [h]; show ej.timestamp < qe.timestamp; omega
    · exact h₁ p h

/-- The capacity-plus-one scenario: starting from an empty cache, inserting
`cap + 1` distinct identifiers at consecutive timestamps leaves exactly the
last `cap` of them — the first-inserted (oldest) identifier is the one
evicted. -/
theorem putSeq_capacity_scenario (cap : Nat) (k0 : String)
    (d0 : List (String × String))
    (esTail : List (String × List (String × String)))
    (hcap : 1 ≤ cap) (hTail : esTail.length = cap)
    (hnd : (((k0, d0) :: esTail).map Prod.fst).Nodup) :
    putSeq cap [] ((k0, d0) :: esTail) 0 = withTimes esTail 1
    ∧ (withTimes esTail 1).length = cap
    ∧ lookupKey (withTimes esTail 1) k0 = none := by
  simp only [List.map_cons, List.nodup_cons] at hnd
  obtain ⟨hk0, hndTail⟩ := hnd
  have hlen2 : (withTimes esTail 1).length = cap := by
    rw [withTimes_length]; exact hTail
  have hlook : lookupKey (withTimes esTail 1) k0 = none := by
    apply lookupKey_eq_none_of_not_mem
    rw [withTimes_keys]
    exact hk0
  refine ⟨?_, hlen2, hlook⟩
  rcases List.eq_nil_or_concat esTail with hnil | ⟨mid, last, hsplit⟩
  · rw [hnil] at hTail; simp at hTail; omega
  rcases last with ⟨kL, dL⟩
  subst hsplit
  rw [List.concat_eq_append] at hTail hk0 hndTail ⊢
  have hmid : mid.length + 1 = cap := by simpa using hTail
  have h0 : putSeq cap [] ((k0, d0) :: (mid ++ [(kL, dL)])) 0
      = putSeq cap [(k0, Entry.mk d0 0)] (mid ++ [(kL, dL)]) 1 := by
    simp only [putSeq]
    congr 1
    unfold cachePut
    rw [if_neg (by simp; omega)]
    rfl
  have hfresh : ∀ p ∈ mid, lookupKey [(k0, Entry.mk d0 0)] p.1 = none := by
    intro p hp
    have hpk : p.1 ≠ k0 := by
      intro h
      apply hk0
      rw [← h, List.map_append]
      exact List.mem_append_left _ (List.mem_map_of_mem Prod.fst hp)
    simp [lookupKey, Ne.symm hpk]
  have hndMid : (mid.map Prod.fst).Nodup := by
    rw [List.map_append] at hndTail
    exact (List.nodup_append.mp hndTail).1
  have h1 : putSeq cap [(k0, Entry.mk d0 0)] mid 1
      = (k0, Entry.mk d0 0) :: withTimes mid 1 := by
    rw [putSeq_fresh cap mid [(k0, Entry.mk d0 0)] 1 (by simp; omega)
      hfresh hndMid]
    rfl
  have h2 := putSeq_append cap mid [(kL, dL)] [(k0, Entry.mk d0 0)] 1
  rw [h0, h2, h1]
  simp only [putSeq]
  have hstamps : ∀ p ∈ withTimes mid 1, 0 < p.2.timestamp := by
    intro p hp
    have := withTimes_timestamp_ge mid 1 p hp
    omega
  have hold : oldestKey ((k0, Entry.mk d0 0) :: withTimes mid 1) = some k0 := by
    show some (oldestKeyGo k0 0 (withTimes mid 1)) = some k0
    rw [oldestKeyGo_of_lt (withTimes mid 1) k0 0 hstamps]
  have hlenMid : ((k0, Entry.mk d0 0) :: withTimes mid 1).length = cap := by
    simp only [List.length_cons, withTimes_length]
    omega
  unfold cachePut
  rw [if_pos (le_of_eq hlenMid.symm), hold]
  have herase : eraseKey ((k0, Entry.mk d0 0) :: withTimes mid 1) k0
      = withTimes mid 1 := by
    simp [eraseKey]
  show setKey (eraseKey ((k0, Entry.mk d0 0) :: withTimes mid 1) k0) kL
      (Entry.mk dL (1 + mid.length)) = withTimes (mid ++ [(kL, dL)]) 1
  rw [herase]
  have hkL : lookupKey (withTimes mid 1) kL = none := by
    apply lookupKey_eq_none_of_not_mem
    rw [withTimes_keys]
    rw [List.map_append] at hndTail
    intro hmem
    exact (List.nodup_append.mp hndTail).2.2 hmem (by simp)
  rw [setKey_fresh _ _ _ hkL, withTimes_append mid [(kL, dL)] 1]
  simp [withTimes]

/-- C4 (amended): the capacity bound holds — a `cachePut` never leaves
more than `capacity` entries — and eviction removes exactly the first
minimal-timestamp entry, but it is triggered by the *pre-insertion* size
reaching capacity (src/app.py line 274), not by the insertion exceeding
capacity: for a fresh key the two coincide (and inserting `capacity + 1`
distinct identifiers into an empty cache leaves exactly the last
`capacity` of them, the oldest-inserted being evicted), while for an
already-present key at capacity an eviction still occurs. -/
theorem cachePut_capacity_and_eviction (cap t t2 : Nat) (c c2 : Cache)
    (k k2 k0 : String) (d d2 d0 : List (String × String))
    (esTail : List (String × List (String × String)))
    (hcap : 1 ≤ cap)
    (hclt : c.length < cap)
    (hc2 : c2.length = cap)
    (hTail : esTail.length = cap)
    (hnd0 : (((k0, d0) :: esTail).map Prod.fst).Nodup) :
    cachePut c cap k d t = setKey c k ⟨d, t⟩
    ∧ (cachePut c cap k d t).length ≤ cap
    ∧ (∃ j ej, oldestKey c2 = some j ∧ IsFirstMin c2 j ej
        ∧ cachePut c2 cap k2 d2 t2 = setKey (eraseKey c2 j) k2 ⟨d2, t2⟩)
    ∧ (cachePut c2 cap k2 d2 t2).length ≤ cap
    ∧ putSeq cap [] ((k0, d0) :: esTail) 0 = withTimes esTail 1
    ∧ (withTimes esTail 1).length = cap
    ∧ lookupKey (withTimes esTail 1) k0 = none := by
  have hnoev : cachePut c cap k d t = setKey c k ⟨d, t⟩ := by
    unfold cachePut
    rw [if_neg (by omega)]
  have hne2 : c2 ≠ [] := by
    intro h; rw [h] at hc2; simp at hc2; omega
  obtain ⟨j, ej, hold, hfm⟩ := oldestKey_first_min c2 hne2
  have hevict : cachePut c2 cap k2 d2 t2 = setKey (eraseKey c2 j) k2 ⟨d2, t2⟩ := by
    unfold cachePut
    rw [if_pos (le_of_eq hc2.symm), hold]
  have hjmem : j ∈ c2.map Prod.fst := by
    obtain ⟨c₁, c₂', hsp, _, _⟩ := hfm
    rw [hsp, List.map_append]
    exact List.mem_append_right _ (by simp)
  have hlenerase := length_eraseKey_of_mem c2 j hjmem
  obtain ⟨hscen, hslen, hslook⟩ :=
    putSeq_capacity_scenario cap k0 d0 esTail hcap hTail hnd0
  refine ⟨hnoev, ?_, ⟨j, ej, hold, hfm, hevict⟩, ?_, hscen, hslen, hslook⟩
  · rw [hnoev]
    have := length_setKey_le c k ⟨d, t⟩
    omega
  · rw [hevict]
    have := length_setKey_le (eraseKey c2 j) k2 ⟨d2, t2⟩
    omega

/-- Witness for `cachePut_capacity_and_eviction` at concrete inputs
(capacity 2; a below-capacity put, an at-capacity put, and the
three-distinct-inserts scenario). -/
theorem cachePut_capacity_and_eviction_witness :
    cachePut [] 2 "z" [("x", "0")] 0 = setKey [] "z" ⟨[("x", "0")], 0⟩
    ∧ (cachePut [] 2 "z" [("x", "0")] 0).length ≤ 2
    ∧ (cachePut [("a", Entry.mk [("x", "1")] 0), ("b", Entry.mk [("x", "2")] 1)]
        2 "z" [("x", "3")] 5).length ≤ 2
    ∧ putSeq 2 [] [("a", [("x", "1")]), ("b", [("x", "2")]), ("c", [("x", "3")])] 0
        = withTimes [("b", [("x", "2")]), ("c", [("x", "3")])] 1
    ∧ (withTimes [("b", [("x", "2")]), ("c", [("x", "3")])] 1).length = 2
    ∧ lookupKey (withTimes [("b", [("x", "2")]), ("c", [("x", "3")])] 1) "a"
        = none := by
  have h := cachePut_capacity_and_eviction 2 0 5
    [] [("a", Entry.mk [("x", "1")] 0), ("b", Entry.mk [("x", "2")] 1)]
    "z" "z" "a" [("x", "0")] [("x", "3")] [("x", "1")]
    [("b", [("x", "2")]), ("c", [("x", "3")])]
    (by decide) (by decide) rfl rfl (by simp)
  exact ⟨h.1, h.2.1, h.2.2.2.1, h.2.2.2.2.1, h.2.2.2.2.2.1, h.2.2.2.2.2.2⟩

end ConsultaRuc
